import Mathlib

/-!
Shallow embedding of the agent orchestration loop, callback manager and tool
dispatch of the goai-kit library (packages `kit` and `internal/callback`).

Modelling conventions:
* Go strings are Lean `String`s; the claims only exercise ASCII inputs, where
  Go's byte-indexed character tests agree with Lean's per-character tests.
* Go maps are association lists (`List (String × α)`) with an insert that
  overwrites the value stored at an existing key, matching `m[k] = v`.
* `uuid.New()` is modelled by a deterministic supply (a counter carried in the
  manager state); the claims never depend on the actual identifier values.
* The remote completion endpoint is an oracle `List Message → CompletionResult`
  and the reflective parts of tool execution (argument unmarshalling, the
  executor's `Execute`, `json.Marshal`) are oracle fields of `Env`, keyed by
  the resolved tool id — they are external collaborators of the loop.
* Callback broadcasts are modelled as an emitted `Event` trace; the manager
  fans each broadcast out to every registered callback, so "an event is
  broadcast" means exactly "an event appears in the trace".
-/

namespace GoaiKit

/-- A char in `A`..`Z`, as tested by `r >= 'A' && r <= 'Z'` in the Go source. -/
def isUpperAZ (c : Char) : Bool := 'A' ≤ c && c ≤ 'Z'

/-- A char in `a`..`z`, as tested in `typeNameToToolName`. -/
def isLowerAZ (c : Char) : Bool := 'a' ≤ c && c ≤ 'z'

/-- The underscore-insertion pass of `typeNameToToolName` (kit/agent.go):
walks the characters, carrying the previous character (`none` at index 0);
before an uppercase letter at position `i > 0` it inserts `_` when the
previous or the next character is lowercase. -/
def camelInsert : Option Char → List Char → List Char
  | _, [] => []
  | prev, c :: rest =>
    let prevIsLower := match prev with
      | some p => isLowerAZ p
      | none => false
    let nextIsLower := match rest with
      | r :: _ => isLowerAZ r
      | [] => false
    let here := if prev.isSome && isUpperAZ c && (prevIsLower || nextIsLower)
      then ['_', c] else [c]
    here ++ camelInsert (some c) rest

/-- `typeNameToToolName` (kit/agent.go): converts a Go type name to a tool
name, e.g. `MyTool -> my_tool`; empty input yields `unnamed_tool`. The final
`strings.ToLower` is modelled by `Char.toLower`, which agrees on ASCII. -/
def typeNameToToolName (typeName : String) : String :=
  if typeName = "" then "unnamed_tool"
  else String.mk ((camelInsert none typeName.toList).map Char.toLower)

/-- `AgentToolInfo` (kit/agent.go): static tool metadata. -/
structure AgentToolInfo where
  Name : String
  Description : String
deriving DecidableEq

/-- A tool executor as far as registration is concerned: the Go type's
reflected name and the `AgentToolInfo` it reports (an empty reported name
means "use the default derived from the type name"). -/
structure ToolExec where
  typeName : String
  infoName : String
  descr : String
deriving DecidableEq

/-- `GetAgentToolInfo` (kit/agent.go): uses the reported info, substituting
`typeNameToToolName` of the reflected type name when the name is empty. -/
def GetAgentToolInfo (t : ToolExec) : AgentToolInfo :=
  if t.infoName = "" then
    { Name := typeNameToToolName t.typeName, Description := t.descr }
  else
    { Name := t.infoName, Description := t.descr }

/-- The tool-id derivation inside `BuildToolSchema` (kit/agent.go):
`strings.ToLower(strings.NewReplacer(" ", "_", "-", "_").Replace(name))`. -/
def toolIDOf (name : String) : String :=
  String.mk ((name.toList.map fun c => if c = ' ' || c = '-' then '_' else c).map Char.toLower)

/-- `ToolSchema` (kit/agent.go); the reflected JSON schema field is produced
by an external collaborator and carries no claim-relevant structure. -/
structure ToolSchema where
  Name : String
  ID : String
  Description : String
deriving DecidableEq

/-- `BuildToolSchema` (kit/agent.go). -/
def BuildToolSchema (t : ToolExec) : ToolSchema :=
  let info := GetAgentToolInfo t
  { Name := info.Name, ID := toolIDOf info.Name, Description := info.Description }

/-- Go map assignment `m[k] = v` on an association list: overwrite the entry
for `k` when present, otherwise append. -/
def insertA {α : Type} (k : String) (v : α) : List (String × α) → List (String × α)
  | [] => [(k, v)]
  | p :: rest => if p.1 = k then (k, v) :: rest else p :: insertA k v rest

/-- Go map lookup `m[k]` on an association list. -/
def lookupA {α : Type} (k : String) : List (String × α) → Option α
  | [] => none
  | p :: rest => if p.1 = k then some p.2 else lookupA k rest

/-- The last element of a list satisfying `p`, i.e. "the last tool registered
with a given id" in the words of the spec. -/
def lastWith {α : Type} (p : α → Bool) : List α → Option α
  | [] => none
  | x :: xs =>
    match lastWith p xs with
    | some y => some y
    | none => if p x then some x else none

/-- The registration loop of `CreateAgentWithOutput` (kit/agent.go): for each
tool, build its schema and store tool and schema under the schema's id. -/
def createAgentMaps (tools : List ToolExec) :
    List (String × ToolExec) × List (String × ToolSchema) :=
  tools.foldl
    (fun maps tool =>
      let toolSchema := BuildToolSchema tool
      (insertA toolSchema.ID tool maps.1, insertA toolSchema.ID toolSchema maps.2))
    ([], [])

/-- An agent callback, identified by its `Name()`; `tag` stands for the rest
of the observer's identity (two distinct observers may share a name). -/
structure AgentCallback where
  name : String
  tag : Nat
deriving DecidableEq

/-- The name-set built by `mergeCallbacks` (kit/agent.go), modelling the Go
`map[string]struct\x7b\x7d` of seen callback names. -/
def NameSet : Type := String → Bool

/-- Inserting a name into the seen-set. -/
def NameSet.insert (s : NameSet) (n : String) : NameSet :=
  fun x => if x = n then true else s x

/-- The empty seen-set. -/
def NameSet.empty : NameSet := fun _ => false

/-- `mergeCallbacks` (kit/agent.go): start from the invoke callbacks, record
their names, then append each agent callback whose name was not seen. -/
def mergeCallbacks (agentCallbacks invokeCallbacks : List AgentCallback) :
    List AgentCallback :=
  let allCallbacks := ([] : List AgentCallback) ++ invokeCallbacks
  let seenCallbackNames :=
    invokeCallbacks.foldl (fun s cb => s.insert cb.name) NameSet.empty
  agentCallbacks.foldl
    (fun acc cb => if seenCallbackNames cb.name then acc else acc ++ [cb])
    allCallbacks

/-- The merge policy in the words of the spec: the invocation-level callbacks
in order, followed by exactly those agent-level callbacks, in order, whose
name does not occur among the invocation-level callbacks' names. -/
def mergeCallbacksSpec (agentCallbacks invokeCallbacks : List AgentCallback) :
    List AgentCallback :=
  invokeCallbacks ++
    agentCallbacks.filter (fun cb => !((invokeCallbacks.map (·.name)).contains cb.name))

/-- A tool result value as seen by `resultToString` (kit/agent.go): Go `nil`,
a string, a byte slice (carried as its string contents, i.e. the value of
`string(v)`), or any other value together with the outcome of `json.Marshal`
on it (`none` models a marshalling error). -/
inductive GoValue where
  | nil : GoValue
  | str : String → GoValue
  | bytes : String → GoValue
  | other : Option String → GoValue
deriving DecidableEq

/-- `resultToString` (kit/agent.go). -/
def resultToString : GoValue → Except String String
  | .nil => .ok ""
  | .str v => .ok v
  | .bytes v => .ok v
  | .other (some data) => .ok data
  | .other none => .error "json marshal error"

/-- A lifecycle event broadcast by the callback manager: one constructor per
manager method of internal/callback (`OnRunStart` … `OnError`). Each event
carries the claim-relevant parts of the context bag handed to the observers. -/
inductive Event where
  | runStart : String → String → Bool → Event
  | runEnd : String → Nat → Event
  | generationStart : Nat → Event
  | generationEnd : String → String → Nat → Event
  | toolCallStart : String → String → Event
  | toolCallEnd : String → String → Bool → Event
  | errorEvent : String → String → Event
deriving DecidableEq

/-- The callback `Manager` state (internal/callback): registered callbacks,
run id, optional parent run id, the `tool_call_id -> nested_run_id` map and
its inverse parent map, plus the deterministic supply standing in for
`uuid.New()`. -/
structure Manager where
  callbacks : List AgentCallback
  runID : String
  parentRunID : Option String
  nestedRunID : List (String × String)
  nestedParents : List (String × String)
  uuidSupply : Nat
deriving DecidableEq

/-- `NewManager` (internal/callback): fresh run id, empty nested maps. -/
def Manager.new (callbacks : List AgentCallback) (parentRunID : Option String) :
    Manager :=
  { callbacks := callbacks
    runID := "run-uuid"
    parentRunID := parentRunID
    nestedRunID := []
    nestedParents := []
    uuidSupply := 0 }

/-- `Manager.createNestedRun`: allocate a fresh nested run id, store it under
the tool-call id and record its parent. -/
def Manager.createNestedRun (cm : Manager) (toolCallID : String) :
    Manager × String :=
  let nestedID := "nested-uuid-" ++ toString cm.uuidSupply
  ({ cm with
      uuidSupply := cm.uuidSupply + 1
      nestedRunID := insertA toolCallID nestedID cm.nestedRunID
      nestedParents := insertA nestedID cm.runID cm.nestedParents },
   nestedID)

/-- `Manager.getNestedRunID`: map lookup, `none` when absent. -/
def Manager.getNestedRunID (cm : Manager) (toolCallID : String) : Option String :=
  lookupA toolCallID cm.nestedRunID

/-- `Manager.OnRunStart`: pure broadcast, no state change. -/
def Manager.onRunStart (_cm : Manager) (model input : String)
    (hasOutputClass : Bool) : Event :=
  .runStart model input hasOutputClass

/-- `Manager.OnRunEnd`: pure broadcast. -/
def Manager.onRunEnd (_cm : Manager) (output : String) (totalIterations : Nat) :
    Event :=
  .runEnd output totalIterations

/-- `Manager.OnGenerationStart`: pure broadcast. -/
def Manager.onGenerationStart (_cm : Manager) (iteration : Nat) : Event :=
  .generationStart iteration

/-- `Manager.OnGenerationEnd`: pure broadcast; the event records finish
reason, content and the number of requested tool calls. -/
def Manager.onGenerationEnd (_cm : Manager) (finishReason content : String)
    (toolCallCount : Nat) : Event :=
  .generationEnd finishReason content toolCallCount

/-- `Manager.OnToolCallStart`: allocates the nested run id for the tool-call
id (mutating the manager), then broadcasts. -/
def Manager.onToolCallStart (cm : Manager) (toolName toolCallID : String) :
    Manager × Event :=
  let created := cm.createNestedRun toolCallID
  (created.1, .toolCallStart toolName toolCallID)

/-- `Manager.OnToolCallEnd`: looks the nested run id up (for attribution
only) and broadcasts; the nested-run map is left untouched. -/
def Manager.onToolCallEnd (cm : Manager) (toolName toolCallID : String)
    (hasError : Bool) : Manager × Event :=
  let _attribution := cm.getNestedRunID toolCallID
  (cm, .toolCallEnd toolName toolCallID hasError)

/-- `Manager.OnError`: pure broadcast of `\x7berror, stage\x7d`. -/
def Manager.onErrorEv (_cm : Manager) (msg stage : String) : Event :=
  .errorEvent stage msg

/-- One invocation of a manager method, for reachability reasoning: the
argument data of each of the seven `On…` methods. -/
inductive MgrOp where
  | runStart : String → String → Bool → MgrOp
  | runEnd : String → Nat → MgrOp
  | generationStart : Nat → MgrOp
  | generationEnd : String → String → Nat → MgrOp
  | toolStart : String → String → MgrOp
  | toolEnd : String → String → Bool → MgrOp
  | errOp : String → String → MgrOp
deriving DecidableEq

/-- Apply one manager method to the manager state (discarding the broadcast). -/
def applyOp (cm : Manager) : MgrOp → Manager
  | .runStart _ _ _ => cm
  | .runEnd _ _ => cm
  | .generationStart _ => cm
  | .generationEnd _ _ _ => cm
  | .toolStart name id => (cm.onToolCallStart name id).1
  | .toolEnd name id e => (cm.onToolCallEnd name id e).1
  | .errOp _ _ => cm

/-- Apply a sequence of manager methods in order. -/
def applyOps (cm : Manager) (ops : List MgrOp) : Manager :=
  ops.foldl applyOp cm

/-- A tool-call request from the completion response: call id, function name
and the JSON-encoded arguments string. -/
structure ToolCall where
  id : String
  name : String
  arguments : String
deriving DecidableEq

/-- One choice of a completion response. -/
structure Choice where
  finishReason : String
  content : String
  toolCalls : List ToolCall
deriving DecidableEq

/-- Outcome of the remote completion call: transport/API error, or a
response with its (possibly empty) choice list. -/
inductive CompletionResult where
  | apiError : String → CompletionResult
  | ok : List Choice → CompletionResult
deriving DecidableEq

/-- A conversation message, by role. -/
inductive Message where
  | system : String → Message
  | user : String → Message
  | assistant : String → List ToolCall → Message
  | tool : String → String → Message
deriving DecidableEq

/-- The external collaborators of tool dispatch, keyed by the resolved tool
id where the registered executor matters: whether the arguments string parses
as a JSON object, whether it unmarshals into a fresh copy of the executor's
argument struct, and the executor's `Execute` outcome (result value and
optional error). -/
structure Env where
  parseArgs : String → Bool
  unmarshalTool : String → String → Bool
  execute : String → String → GoValue × Option String

/-- The agent as the loop sees it (kit/agent.go `Agent[Output]`), with the
output type abstracted to: is it `string`, and does a given content string
unmarshal into it. -/
structure AgentModel where
  tools : List (String × ToolExec)
  schemas : List (String × ToolSchema)
  model : String
  callbacks : List AgentCallback
  maxIterations : Nat
  isStringOutput : Bool
  outputParses : String → Bool

/-- The tool-lookup loop of `executeToolCalls` (kit/agent.go): scan the
schemas for one whose `Name` matches; `foundToolID` stays `""` when none
does. -/
def findToolID (schemas : List (String × ToolSchema)) (toolName : String) :
    String :=
  match schemas.find? (fun p => p.2.Name = toolName) with
  | some p => p.1
  | none => ""

/-- Manager-state, emitted events and outcome of processing tool calls. -/
structure ToolsOut (α : Type) where
  mgr : Manager
  trace : List Event
  result : Except String α

/-- The body of the `for _, toolCall := range toolCalls` loop of
`executeToolCalls` (kit/agent.go) for one tool call: parse the arguments
(failure broadcasts `OnToolCallEnd` and aborts), broadcast `OnToolCallStart`,
resolve the tool by name, unmarshal the arguments into a fresh executor copy,
execute it, broadcast `OnToolCallEnd`, and normalize the result into the
tool-role message. -/
def execOneToolCall (A : AgentModel) (env : Env) (cm : Manager) (tc : ToolCall) :
    ToolsOut Message :=
  if !(env.parseArgs tc.arguments) then
    let ended := cm.onToolCallEnd tc.name tc.id true
    { mgr := ended.1, trace := [ended.2]
      result := .error "failed to parse tool arguments" }
  else
    let started := cm.onToolCallStart tc.name tc.id
    let cm := started.1
    let foundToolID := findToolID A.schemas tc.name
    if foundToolID = "" then
      let ended := cm.onToolCallEnd tc.name tc.id true
      { mgr := ended.1, trace := [started.2, ended.2]
        result := .error ("tool not found: " ++ tc.name) }
    else if !(env.unmarshalTool foundToolID tc.arguments) then
      let ended := cm.onToolCallEnd tc.name tc.id true
      { mgr := ended.1, trace := [started.2, ended.2]
        result := .error "failed to unmarshal tool arguments" }
    else
      let outcome := env.execute foundToolID tc.arguments
      let ended := cm.onToolCallEnd tc.name tc.id outcome.2.isSome
      match outcome.2 with
      | some _ =>
        { mgr := ended.1, trace := [started.2, ended.2]
          result := .error ("tool " ++ tc.name ++ " failed") }
      | none =>
        match resultToString outcome.1 with
        | .error e =>
          { mgr := ended.1, trace := [started.2, ended.2]
            result := .error ("failed to convert tool result to string: " ++ e) }
        | .ok resultStr =>
          { mgr := ended.1, trace := [started.2, ended.2]
            result := .ok (.tool resultStr tc.id) }

/-- `executeToolCalls` (kit/agent.go): process the batch in order; the first
failing call aborts the batch (its events already broadcast), successful
calls accumulate their tool-role messages. -/
def executeToolCalls (A : AgentModel) (env : Env) (cm : Manager) :
    List ToolCall → ToolsOut (List Message)
  | [] => { mgr := cm, trace := [], result := .ok [] }
  | tc :: rest =>
    let one := execOneToolCall A env cm tc
    match one.result with
    | .error e => { mgr := one.mgr, trace := one.trace, result := .error e }
    | .ok msg =>
      let more := executeToolCalls A env one.mgr rest
      match more.result with
      | .error e =>
        { mgr := more.mgr, trace := one.trace ++ more.trace, result := .error e }
      | .ok msgs =>
        { mgr := more.mgr, trace := one.trace ++ more.trace
          result := .ok (msg :: msgs) }

/-- Manager-state, trace, outcome and final iteration count of the loop. -/
structure LoopOut where
  mgr : Manager
  trace : List Event
  result : Except String String
  iterations : Nat

/-- The `for iteration < maxIterations` loop of `executeLoop` (kit/agent.go),
with the remaining trip count made explicit: `fuel` and `iteration` move in
lockstep (`fuel = maxIterations - iteration`), so `fuel = 0` is exactly the
loop exiting and reporting the iteration-limit error. Each pass broadcasts
`OnGenerationStart`, consults the completion oracle (transport error or an
empty choice list abort with `OnError(stage="generation")`), broadcasts
`OnGenerationEnd`, appends the assistant message, and then either finishes
(no tool calls: plain content for a string output, otherwise the structured
parse whose failure aborts with `OnError(stage="generation")`) or dispatches
the tool calls (a failure aborts with `OnError(stage="tool")`) and loops. -/
def loopGo (A : AgentModel) (env : Env)
    (oracle : List Message → CompletionResult) (maxIterations : Nat) :
    Nat → Nat → List Message → Manager → LoopOut
  | 0, iteration, _messages, cm =>
    let err := "max iterations (" ++ toString maxIterations ++
      ") reached without completion"
    { mgr := cm, trace := [cm.onErrorEv err "run"], result := .error err
      iterations := iteration }
  | fuel + 1, iteration, messages, cm =>
    let iteration := iteration + 1
    let evGS := cm.onGenerationStart iteration
    match oracle messages with
    | .apiError e =>
      { mgr := cm
        trace := [evGS, cm.onErrorEv ("OpenAI API error: " ++ e) "generation"]
        result := .error ("OpenAI API error: " ++ e), iterations := iteration }
    | .ok [] =>
      { mgr := cm
        trace := [evGS, cm.onErrorEv "no choices in response" "generation"]
        result := .error "no choices in response", iterations := iteration }
    | .ok (choice :: _) =>
      let evGE := cm.onGenerationEnd choice.finishReason choice.content
        choice.toolCalls.length
      let messages := messages ++ [.assistant choice.content choice.toolCalls]
      match choice.toolCalls with
      | [] =>
        if A.isStringOutput then
          { mgr := cm, trace := [evGS, evGE], result := .ok choice.content
            iterations := iteration }
        else if A.outputParses choice.content then
          { mgr := cm, trace := [evGS, evGE], result := .ok choice.content
            iterations := iteration }
        else
          { mgr := cm
            trace := [evGS, evGE,
              cm.onErrorEv "failed to parse output JSON" "generation"]
            result := .error "failed to parse output JSON"
            iterations := iteration }
      | tc :: tcs =>
        let dispatched := executeToolCalls A env cm (tc :: tcs)
        match dispatched.result with
        | .error e =>
          { mgr := dispatched.mgr
            trace := [evGS, evGE] ++ dispatched.trace ++
              [dispatched.mgr.onErrorEv e "tool"]
            result := .error e, iterations := iteration }
        | .ok toolMessages =>
          let next := loopGo A env oracle maxIterations fuel iteration
            (messages ++ toolMessages) dispatched.mgr
          { mgr := next.mgr
            trace := [evGS, evGE] ++ dispatched.trace ++ next.trace
            result := next.result, iterations := next.iterations }

/-- `executeLoop` (kit/agent.go): run the loop from iteration 0 with the full
budget. -/
def executeLoop (A : AgentModel) (env : Env)
    (oracle : List Message → CompletionResult) (messages : List Message)
    (cm : Manager) (maxIterations : Nat) : LoopOut :=
  loopGo A env oracle maxIterations maxIterations 0 messages cm

/-- `InvokeConfig` (kit/agent.go). -/
structure InvokeConfig where
  prompt : String
  messages : List Message
  callbacks : List AgentCallback
  parentRunID : Option String
  systemPrompt : String
  maxIterations : Option Nat

/-- `buildMessages` (kit/agent.go): optional system prompt first; exactly one
of `Prompt`/`Messages` must be supplied. -/
def buildMessages (config : InvokeConfig) : Except String (List Message) :=
  let messages : List Message :=
    if config.systemPrompt ≠ "" then [.system config.systemPrompt] else []
  if config.prompt ≠ "" && !config.messages.isEmpty then
    .error "cannot specify both Prompt and Messages"
  else if config.prompt ≠ "" then
    .ok (messages ++ [.user config.prompt])
  else if !config.messages.isEmpty then
    .ok (messages ++ config.messages)
  else
    .error "must specify either Prompt or Messages"

/-- `Invoke` (kit/agent.go): merge callbacks, create the manager, build the
messages (an input error broadcasts `OnError(stage="run")` and returns),
broadcast `OnRunStart`, resolve the iteration cap (per-invocation override,
else the agent's), run the loop (an error broadcasts a final
`OnError(stage="run")` and returns), and broadcast `OnRunEnd` on success.
The returned pair is (result, broadcast event trace in order). -/
def Invoke (A : AgentModel) (env : Env)
    (oracle : List Message → CompletionResult) (config : InvokeConfig) :
    Except String String × List Event :=
  let allCallbacks := mergeCallbacks A.callbacks config.callbacks
  let cm := Manager.new allCallbacks config.parentRunID
  match buildMessages config with
  | .error e => (.error e, [cm.onErrorEv e "run"])
  | .ok messages =>
    let hasOutputClass := !A.isStringOutput
    let input := if config.prompt = "" then "messages" else config.prompt
    let evRS := cm.onRunStart A.model input hasOutputClass
    let maxIter := config.maxIterations.getD A.maxIterations
    let loopOut := executeLoop A env oracle messages cm maxIter
    match loopOut.result with
    | .error e =>
      (.error e, evRS :: (loopOut.trace ++ [loopOut.mgr.onErrorEv e "run"]))
    | .ok out =>
      (.ok out, evRS :: (loopOut.trace ++ [loopOut.mgr.onRunEnd out loopOut.iterations]))

/-- The result component of `Invoke`. -/
def invokeResult (A : AgentModel) (env : Env)
    (oracle : List Message → CompletionResult) (config : InvokeConfig) :
    Except String String :=
  (Invoke A env oracle config).1

/-- The broadcast trace of `Invoke`. -/
def invokeTrace (A : AgentModel) (env : Env)
    (oracle : List Message → CompletionResult) (config : InvokeConfig) :
    List Event :=
  (Invoke A env oracle config).2

/-- Is this event an `OnError` broadcast? -/
def isErrorEvent : Event → Bool
  | .errorEvent _ _ => true
  | _ => false

/-- Is this event an `OnGenerationStart` broadcast? -/
def isGenStartEvent : Event → Bool
  | .generationStart _ => true
  | _ => false

/-- Is this event an `OnGenerationEnd` broadcast? -/
def isGenEndEvent : Event → Bool
  | .generationEnd _ _ _ => true
  | _ => false

/-- Is this event a tool-call event (`OnToolCallStart` or `OnToolCallEnd`)? -/
def isToolEvent : Event → Bool
  | .toolCallStart _ _ => true
  | .toolCallEnd _ _ _ => true
  | _ => false

/-- Number of `OnError` broadcasts in a trace. -/
def countErrorEvents (tr : List Event) : Nat := (tr.filter isErrorEvent).length

/-- Number of `OnGenerationStart` broadcasts in a trace. -/
def countGenStarts (tr : List Event) : Nat := (tr.filter isGenStartEvent).length

/-- `CreateAgentWithOutput` (kit/agent.go): build the tool/schema registries
(later registrations overwriting earlier ones at the same id), default the
model to `gpt-4o` unless the client's config names one, no default callbacks,
iteration cap 10. -/
def CreateAgentWithOutput (defaultModel : String) (isStringOutput : Bool)
    (outputParses : String → Bool) (tools : List ToolExec) : AgentModel :=
  let maps := createAgentMaps tools
  { tools := maps.1
    schemas := maps.2
    model := if defaultModel = "" then "gpt-4o" else defaultModel
    callbacks := []
    maxIterations := 10
    isStringOutput := isStringOutput
    outputParses := outputParses }

/-- Did this fallible computation succeed? -/
def exceptOk {ε α : Type} : Except ε α → Bool
  | .ok _ => true
  | .error _ => false

/-- All the conditions under which `execOneToolCall` dispatches `tc` without
error: the arguments parse, the tool resolves, the arguments unmarshal into
the executor copy, execution reports no error and the result normalizes. -/
def toolCallOK (A : AgentModel) (env : Env) (tc : ToolCall) : Bool :=
  env.parseArgs tc.arguments &&
  !(findToolID A.schemas tc.name = "") &&
  env.unmarshalTool (findToolID A.schemas tc.name) tc.arguments &&
  (env.execute (findToolID A.schemas tc.name) tc.arguments).2.isNone &&
  exceptOk (resultToString (env.execute (findToolID A.schemas tc.name) tc.arguments).1)

/-- The premise of the iteration-budget claim: every completion response has
at least one choice whose tool-call list is non-empty and dispatches cleanly,
so no generation step is terminal. -/
def alwaysToolStep (A : AgentModel) (env : Env)
    (oracle : List Message → CompletionResult) : Prop :=
  ∀ msgs, ∃ choice rest, oracle msgs = .ok (choice :: rest) ∧
    choice.toolCalls ≠ [] ∧ ∀ tc ∈ choice.toolCalls, toolCallOK A env tc = true

/-- Fixture: a tool whose reported name is `t1`. -/
def toolFix : ToolExec := { typeName := "T1", infoName := "t1", descr := "d" }

/-- Fixture: a string-output agent registering `toolFix`. -/
def agentFix : AgentModel :=
  CreateAgentWithOutput "model-fix" true (fun _ => true) [toolFix]

/-- Fixture: an environment in which every tool call dispatches cleanly. -/
def envOKFix : Env :=
  { parseArgs := fun _ => true
    unmarshalTool := fun _ _ => true
    execute := fun _ _ => (GoValue.str "tool result", none) }

/-- Fixture: an environment in which no arguments string parses (malformed
JSON on every call). -/
def envBadArgsFix : Env :=
  { parseArgs := fun _ => false
    unmarshalTool := fun _ _ => true
    execute := fun _ _ => (GoValue.str "tool result", none) }

/-- Fixture: a prompt-only invocation configuration. -/
def cfgPromptFix : InvokeConfig :=
  { prompt := "hi", messages := [], callbacks := [], parentRunID := none
    systemPrompt := "", maxIterations := none }

/-- Fixture: a configuration supplying both a prompt and a message list. -/
def cfgBothFix : InvokeConfig :=
  { prompt := "hi", messages := [Message.user "x"], callbacks := []
    parentRunID := none, systemPrompt := "", maxIterations := some 3 }

/-- Fixture: a tool call addressed to `t1` with parseable arguments. -/
def tcFix : ToolCall := { id := "call-1", name := "t1", arguments := "null" }

/-- Fixture: an oracle that always requests the `tcFix` tool call. -/
def oracleToolFix : List Message → CompletionResult :=
  fun _ => .ok [{ finishReason := "tool_calls", content := "", toolCalls := [tcFix] }]

/-- Fixture: an oracle whose remote call always fails at the transport. -/
def oracleAPIErrFix : List Message → CompletionResult :=
  fun _ => .apiError "boom"

/-- Fixture: an oracle that always answers with zero choices. -/
def oracleNoChoicesFix : List Message → CompletionResult :=
  fun _ => .ok []

/-- Fixture: an oracle that immediately answers with a terminal (no tool
calls) choice. -/
def oracleDoneFix : List Message → CompletionResult :=
  fun _ => .ok [{ finishReason := "stop", content := "answer", toolCalls := [] }]

/-- Fixture: a prompt-only configuration with a `MaxIterations = 1` override. -/
def cfgMax1Fix : InvokeConfig :=
  { prompt := "hi", messages := [], callbacks := [], parentRunID := none
    systemPrompt := "", maxIterations := some 1 }

/-- C7: the type-name-to-tool-name normalization converts CamelCase to
lower_snake_case; in particular `HTTPClient2Request` yields exactly
`http_client2_request` (and the doc-comment examples `MyTool -> my_tool`,
`HTTPClient -> http_client` also hold). -/
theorem C7_typeNameToToolName_examples :
    typeNameToToolName "HTTPClient2Request" = "http_client2_request" ∧
    typeNameToToolName "MyTool" = "my_tool" ∧
    typeNameToToolName "HTTPClient" = "http_client" := by
  exact ⟨by decide, by decide, by decide⟩

/-- C6: `resultToString` normalizes a `nil` result to the empty string,
passes a string result through unchanged, passes a byte-slice result through
as its string contents, serializes any other value to its JSON text; and the
dispatch of a cleanly executing tool call appends exactly that normalized
text as the tool-role message keyed by the call id. -/
theorem C6_resultToString_normalization (s j r : String) (v : GoValue)
    (A : AgentModel) (env : Env) (cm : Manager) (tc : ToolCall)
    (hargs : env.parseArgs tc.arguments = true)
    (hfind : findToolID A.schemas tc.name ≠ "")
    (hun : env.unmarshalTool (findToolID A.schemas tc.name) tc.arguments = true)
    (hex : env.execute (findToolID A.schemas tc.name) tc.arguments = (v, none))
    (hres : resultToString v = .ok r) :
    resultToString .nil = .ok "" ∧
    resultToString (.str s) = .ok s ∧
    resultToString (.bytes s) = .ok s ∧
    resultToString (.other (some j)) = .ok j ∧
    (execOneToolCall A env cm tc).result = .ok (.tool r tc.id) := by
  refine ⟨rfl, rfl, rfl, rfl, ?_⟩
  unfold execOneToolCall
  simp only [hargs, Bool.not_true, Bool.false_eq_true, if_false, hfind, if_neg,
    hun, hex]
  simp [hres, Manager.onToolCallStart, Manager.onToolCallEnd]

/-- Witness for C6 at a concrete cleanly-executing tool call. -/
theorem C6_resultToString_normalization_witness :
    (execOneToolCall agentFix envOKFix (Manager.new [] none) tcFix).result =
      .ok (.tool "tool result" tcFix.id) :=
  (C6_resultToString_normalization "s" "j" "tool result" (.str "tool result")
    agentFix envOKFix (Manager.new [] none) tcFix
    (by decide) (by decide) (by decide) rfl rfl).2.2.2.2

/-- The seen-name set built by `mergeCallbacks` contains exactly the invoke
callbacks' names (over any initial set). -/
theorem seenNames_foldl (cbs : List AgentCallback) (s : NameSet) (x : String) :
    (cbs.foldl (fun s cb => s.insert cb.name) s) x =
      (s x || (cbs.map (·.name)).contains x) := by
  induction cbs generalizing s with
  | nil => simp
  | cons cb rest ih =>
    simp only [List.foldl_cons, ih, List.map_cons, List.contains_cons]
    by_cases h : x = cb.name
    · simp [NameSet.insert, h]
    · simp [NameSet.insert, h, Ne.symm h]
      cases s x <;> simp [beq_iff_eq, Ne.symm h, h]

/-- The append-if-unseen fold of `mergeCallbacks` is an append of a filter. -/
theorem appendUnseen_foldl (seen : NameSet) (agentCbs : List AgentCallback)
    (init : List AgentCallback) :
    agentCbs.foldl (fun acc cb => if seen cb.name then acc else acc ++ [cb]) init =
      init ++ agentCbs.filter (fun cb => !seen cb.name) := by
  induction agentCbs generalizing init with
  | nil => simp
  | cons cb rest ih =>
    by_cases h : seen cb.name <;>
      simp [List.foldl_cons, h, ih, List.filter_cons]

/-- C9: the effective callback list produced by `mergeCallbacks` equals the
invocation-level callbacks in their given order followed by exactly those
agent-level callbacks, in their given order, whose name does not occur among
the invocation-level callbacks' names. -/
theorem C9_mergeCallbacks_eq_spec (agentCbs invokeCbs : List AgentCallback) :
    mergeCallbacks agentCbs invokeCbs = mergeCallbacksSpec agentCbs invokeCbs := by
  unfold mergeCallbacks mergeCallbacksSpec
  rw [appendUnseen_foldl]
  simp only [List.nil_append]
  congr 1
  apply List.filter_congr
  intro cb _
  rw [seenNames_foldl]
  simp [NameSet.empty]

/-- Looking a key up after a Go-style map assignment. -/
theorem lookupA_insertA {α : Type} (k k' : String) (v : α)
    (m : List (String × α)) :
    lookupA k' (insertA k v m) = if k' = k then some v else lookupA k' m := by
  induction m with
  | nil =>
    by_cases h : k = k'
    · simp [insertA, lookupA, h]
    · have h2 : ¬k' = k := fun hc => h hc.symm
      simp [insertA, lookupA, h, h2]
  | cons p rest ih =>
    by_cases hk : p.1 = k
    · by_cases h : k = k'
      · simp [insertA, lookupA, hk, h]
      · have h2 : ¬k' = k := fun hc => h hc.symm
        simp [insertA, lookupA, hk, h, h2]
    · by_cases hp : p.1 = k'
      · have hne : ¬k' = k := fun hc => hk (hp.trans hc)
        simp [insertA, lookupA, hk, hp, hne]
      · simp [insertA, lookupA, hk, hp, ih]

/-- Unfolding equation of `lastWith` on a cons cell. -/
theorem lastWith_cons {α : Type} (p : α → Bool) (a : α) (l : List α) :
    lastWith p (a :: l) =
      (match lastWith p l with
       | some y => some y
       | none => if p a then some a else none) := rfl

/-- A member satisfying `p` forces `lastWith p` to produce something. -/
theorem lastWith_isSome {α : Type} (p : α → Bool) (l : List α) (x : α)
    (hx : x ∈ l) (hp : p x = true) : ∃ y, lastWith p l = some y := by
  induction l with
  | nil => cases hx
  | cons a rest ih =>
    rcases List.mem_cons.1 hx with rfl | hmem
    · cases hlast : lastWith p rest with
      | some y => exact ⟨y, by rw [lastWith_cons, hlast]⟩
      | none => exact ⟨x, by rw [lastWith_cons, hlast]; simp [hp]⟩
    · obtain ⟨y, hy⟩ := ih hmem
      exact ⟨y, by rw [lastWith_cons, hy]⟩

/-- The registration fold of `CreateAgentWithOutput`: the tool registered
under an id is the last tool of the list whose schema id is that id, falling
back to the initial map when there is none. -/
theorem createAgent_lookup_fold (ts : List ToolExec)
    (m1 : List (String × ToolExec)) (m2 : List (String × ToolSchema))
    (id : String) :
    lookupA id
      (ts.foldl
        (fun maps tool =>
          let toolSchema := BuildToolSchema tool
          (insertA toolSchema.ID tool maps.1, insertA toolSchema.ID toolSchema maps.2))
        (m1, m2)).1 =
      (match lastWith (fun t => (BuildToolSchema t).ID = id) ts with
       | some t => some t
       | none => lookupA id m1) := by
  induction ts generalizing m1 m2 with
  | nil => simp [lastWith]
  | cons t rest ih =>
    simp only [List.foldl_cons]
    rw [ih, lastWith_cons]
    cases hlast : lastWith (fun t => decide ((BuildToolSchema t).ID = id)) rest with
    | some y => simp
    | none =>
      simp only [lookupA_insertA]
      by_cases h : (BuildToolSchema t).ID = id
      · simp [h]
      · have h2 : ¬id = (BuildToolSchema t).ID := fun hc => h hc.symm
        simp [h, h2]

/-- C8: when two tools with distinct names normalize to the same tool id,
agent construction raises no error (it is total) and the registry maps that
id to the last tool registered with it. -/
theorem C8_collision_last_wins (ts : List ToolExec) (t1 t2 : ToolExec)
    (id : String) (_h1 : t1 ∈ ts) (h2 : t2 ∈ ts)
    (_hnames : (GetAgentToolInfo t1).Name ≠ (GetAgentToolInfo t2).Name)
    (_hid1 : (BuildToolSchema t1).ID = id) (hid2 : (BuildToolSchema t2).ID = id) :
    ∃ tlast, lastWith (fun t => (BuildToolSchema t).ID = id) ts = some tlast ∧
      lookupA id (createAgentMaps ts).1 = some tlast := by
  obtain ⟨tlast, hlast⟩ :=
    lastWith_isSome (fun t => (BuildToolSchema t).ID = id) ts t2 h2 (by simp [hid2])
  refine ⟨tlast, hlast, ?_⟩
  unfold createAgentMaps
  rw [createAgent_lookup_fold, hlast]

/-- Witness for C8: `My Tool` and `my-tool` both normalize to id `my_tool`;
the registry maps it to the later registration. -/
theorem C8_collision_last_wins_witness :
    ∃ tlast,
      lastWith (fun t => (BuildToolSchema t).ID = "my_tool")
        [{ typeName := "A", infoName := "My Tool", descr := "" },
         { typeName := "B", infoName := "my-tool", descr := "" }] = some tlast ∧
      lookupA "my_tool"
        (createAgentMaps
          [{ typeName := "A", infoName := "My Tool", descr := "" },
           { typeName := "B", infoName := "my-tool", descr := "" }]).1 = some tlast :=
  C8_collision_last_wins
    [{ typeName := "A", infoName := "My Tool", descr := "" },
     { typeName := "B", infoName := "my-tool", descr := "" }]
    { typeName := "A", infoName := "My Tool", descr := "" }
    { typeName := "B", infoName := "my-tool", descr := "" }
    "my_tool" (by simp) (by simp) (by decide) (by decide) (by decide)

/-- C3 counterexample: after `OnToolCallStart` followed by a completed
`OnToolCallEnd` for tool-call id `c1`, the manager's tool-call-id map still
holds the `c1` entry — the entry is not removed when the tool call ends,
contradicting the claimed if-and-only-if with open tool executions. -/
theorem C3_counterexample :
    lookupA "c1"
      ((applyOps (Manager.new [] none)
        [.toolStart "t" "c1", .toolEnd "t" "c1" false]).nestedRunID) =
      some "nested-uuid-0" := by
  decide

/-- Presence in the nested-run map after a batch of manager methods: an entry
survives from the initial state or is created by some `OnToolCallStart`;
nothing ever removes one. -/
theorem applyOps_nested_present (ops : List MgrOp) (cm : Manager) (id : String) :
    (lookupA id (applyOps cm ops).nestedRunID).isSome =
      ((lookupA id cm.nestedRunID).isSome ||
        ops.any (fun op => match op with
          | .toolStart _ c => c = id
          | _ => false)) := by
  induction ops generalizing cm with
  | nil => simp [applyOps]
  | cons op rest ih =>
    have hstep : applyOps cm (op :: rest) = applyOps (applyOp cm op) rest := rfl
    rw [hstep, ih]
    cases op with
    | toolStart name c =>
      simp only [applyOp, Manager.onToolCallStart, Manager.createNestedRun,
        List.any_cons]
      rw [lookupA_insertA]
      by_cases h : id = c
      · simp [h]
      · have h2 : ¬(c = id) := fun hc => h hc.symm
        simp [h, h2]
    | toolEnd name c e => simp [applyOp, Manager.onToolCallEnd]
    | runStart m i b => simp [applyOp]
    | runEnd o i => simp [applyOp]
    | generationStart i => simp [applyOp]
    | generationEnd f c n => simp [applyOp]
    | errOp m s => simp [applyOp]

/-- C3 amended: in every reachable manager state of one invocation, a nested
run id is present in the tool-call-id map if and only if `OnToolCallStart`
has been invoked for that tool-call id during the invocation; the entry is
retained (not removed) after `OnToolCallEnd` completes. -/
theorem C3_nested_iff_started (ops : List MgrOp) (cbs : List AgentCallback)
    (p : Option String) (id : String) :
    (lookupA id (applyOps (Manager.new cbs p) ops).nestedRunID).isSome = true ↔
      ∃ op ∈ ops, ∃ name, op = .toolStart name id := by
  rw [applyOps_nested_present]
  simp only [Manager.new, lookupA, Option.isSome_none, Bool.false_or]
  rw [List.any_eq_true]
  constructor
  · rintro ⟨op, hmem, hop⟩
    cases op with
    | toolStart name c =>
      have hc : c = id := by simpa using hop
      exact ⟨_, hmem, name, by rw [hc]⟩
    | toolEnd name c e => simp at hop
    | runStart m i b => simp at hop
    | runEnd o i => simp at hop
    | generationStart i => simp at hop
    | generationEnd f c n => simp at hop
    | errOp m s => simp at hop
  · rintro ⟨op, hmem, name, rfl⟩
    exact ⟨_, hmem, by simp⟩

/-- C4 counterexample: a tool call whose JSON arguments string is malformed
produces an `OnToolCallEnd` broadcast with no preceding `OnToolCallStart`
for that tool-call id. -/
theorem C4_counterexample :
    (executeToolCalls agentFix envBadArgsFix (Manager.new [] none)
      [{ id := "call-9", name := "t1", arguments := "not-json" }]).trace =
      [.toolCallEnd "t1" "call-9" true] := by
  decide

/-- C4 amended: dispatching one tool call whose arguments parse broadcasts
`OnToolCallStart` followed by exactly one `OnToolCallEnd` with the same
tool-call id; when the arguments string is malformed, a single
`OnToolCallEnd` with the error populated is broadcast with no preceding
`OnToolCallStart`. -/
theorem C4_toolCall_event_order (A : AgentModel) (env : Env) (cm : Manager)
    (tc : ToolCall) :
    (env.parseArgs tc.arguments = true →
      ∃ b, (execOneToolCall A env cm tc).trace =
        [.toolCallStart tc.name tc.id, .toolCallEnd tc.name tc.id b]) ∧
    (env.parseArgs tc.arguments = false →
      (execOneToolCall A env cm tc).trace = [.toolCallEnd tc.name tc.id true]) := by
  constructor
  · intro h
    by_cases hf : findToolID A.schemas tc.name = ""
    · exact ⟨true, by simp [execOneToolCall, h, hf, Manager.onToolCallStart,
        Manager.onToolCallEnd]⟩
    · by_cases hu : env.unmarshalTool (findToolID A.schemas tc.name) tc.arguments
      · cases hex : (env.execute (findToolID A.schemas tc.name) tc.arguments).2 with
        | some e =>
          exact ⟨true, by simp [execOneToolCall, h, hf, hu, hex,
            Manager.onToolCallStart, Manager.onToolCallEnd]⟩
        | none =>
          cases hres : resultToString
              (env.execute (findToolID A.schemas tc.name) tc.arguments).1 with
          | error e =>
            exact ⟨false, by simp [execOneToolCall, h, hf, hu, hex, hres,
              Manager.onToolCallStart, Manager.onToolCallEnd]⟩
          | ok s =>
            exact ⟨false, by simp [execOneToolCall, h, hf, hu, hex, hres,
              Manager.onToolCallStart, Manager.onToolCallEnd]⟩
      · exact ⟨true, by simp [execOneToolCall, h, hf, hu,
          Manager.onToolCallStart, Manager.onToolCallEnd]⟩
  · intro h
    simp [execOneToolCall, h, Manager.onToolCallEnd]

/-- Witness for C4 at a parseable and at a malformed tool call. -/
theorem C4_toolCall_event_order_witness :
    (∃ b, (execOneToolCall agentFix envOKFix (Manager.new [] none) tcFix).trace =
      [.toolCallStart tcFix.name tcFix.id, .toolCallEnd tcFix.name tcFix.id b]) ∧
    (execOneToolCall agentFix envBadArgsFix (Manager.new [] none) tcFix).trace =
      [.toolCallEnd tcFix.name tcFix.id true] :=
  ⟨(C4_toolCall_event_order agentFix envOKFix (Manager.new [] none) tcFix).1 rfl,
   (C4_toolCall_event_order agentFix envBadArgsFix (Manager.new [] none) tcFix).2 rfl⟩

/-- C10: a successful completion call whose response carries zero choices
aborts the iteration with an error (it is not a terminal empty answer):
`OnError` fires with stage `generation`, no `OnGenerationEnd` is broadcast
for that iteration, and the invocation returns the error (with the final
stage-`run` `OnError` appended before returning). -/
theorem C10_zero_choices (A : AgentModel) (env : Env)
    (oracle : List Message → CompletionResult) :
    (∀ maxI fuel iteration msgs cm, oracle msgs = .ok [] →
      loopGo A env oracle maxI (fuel + 1) iteration msgs cm =
        { mgr := cm
          trace := [.generationStart (iteration + 1),
            .errorEvent "generation" "no choices in response"]
          result := .error "no choices in response"
          iterations := iteration + 1 }) ∧
    (∀ config msgs m, buildMessages config = .ok msgs → oracle msgs = .ok [] →
      config.maxIterations.getD A.maxIterations = m + 1 →
      invokeResult A env oracle config = .error "no choices in response" ∧
      invokeTrace A env oracle config =
        [.runStart A.model
          (if config.prompt = "" then "messages" else config.prompt)
          (!A.isStringOutput),
         .generationStart 1,
         .errorEvent "generation" "no choices in response",
         .errorEvent "run" "no choices in response"]) := by
  have hloop : ∀ maxI fuel iteration msgs cm, oracle msgs = .ok [] →
      loopGo A env oracle maxI (fuel + 1) iteration msgs cm =
        { mgr := cm
          trace := [.generationStart (iteration + 1),
            .errorEvent "generation" "no choices in response"]
          result := .error "no choices in response"
          iterations := iteration + 1 } := by
    intro maxI fuel iteration msgs cm h
    simp [loopGo, h, Manager.onGenerationStart, Manager.onErrorEv]
  refine ⟨hloop, ?_⟩
  intro config msgs m hmsgs horacle hmax
  have hl := hloop (m + 1) m 0 msgs
    (Manager.new (mergeCallbacks A.callbacks config.callbacks) config.parentRunID)
    horacle
  constructor
  · simp [invokeResult, Invoke, executeLoop, hmsgs, hmax, hl,
      Manager.onErrorEv, Manager.onRunStart]
  · simp [invokeTrace, Invoke, executeLoop, hmsgs, hmax, hl,
      Manager.onErrorEv, Manager.onRunStart]

/-- Witness for C10 at the zero-choices oracle. -/
theorem C10_zero_choices_witness :
    invokeResult agentFix envOKFix oracleNoChoicesFix cfgPromptFix =
      .error "no choices in response" ∧
    invokeTrace agentFix envOKFix oracleNoChoicesFix cfgPromptFix =
      [.runStart agentFix.model
        (if cfgPromptFix.prompt = "" then "messages" else cfgPromptFix.prompt)
        (!agentFix.isStringOutput),
       .generationStart 1,
       .errorEvent "generation" "no choices in response",
       .errorEvent "run" "no choices in response"] :=
  (C10_zero_choices agentFix envOKFix oracleNoChoicesFix).2 cfgPromptFix
    [.user "hi"] 9 rfl rfl (by decide)

/-- The events of one tool-call dispatch: either a lone `OnToolCallEnd` (the
malformed-arguments path) or an `OnToolCallStart` followed by one
`OnToolCallEnd`. -/
theorem execOne_trace_shape (A : AgentModel) (env : Env) (cm : Manager)
    (tc : ToolCall) :
    (execOneToolCall A env cm tc).trace = [.toolCallEnd tc.name tc.id true] ∨
    ∃ b, (execOneToolCall A env cm tc).trace =
      [.toolCallStart tc.name tc.id, .toolCallEnd tc.name tc.id b] := by
  by_cases h : env.parseArgs tc.arguments
  · right
    by_cases hf : findToolID A.schemas tc.name = ""
    · exact ⟨true, by simp [execOneToolCall, h, hf, Manager.onToolCallStart,
        Manager.onToolCallEnd]⟩
    · by_cases hu : env.unmarshalTool (findToolID A.schemas tc.name) tc.arguments
      · cases hex : (env.execute (findToolID A.schemas tc.name) tc.arguments).2 with
        | some er =>
          exact ⟨true, by simp [execOneToolCall, h, hf, hu, hex,
            Manager.onToolCallStart, Manager.onToolCallEnd]⟩
        | none =>
          cases hres : resultToString
              (env.execute (findToolID A.schemas tc.name) tc.arguments).1 with
          | error er =>
            exact ⟨false, by simp [execOneToolCall, h, hf, hu, hex, hres,
              Manager.onToolCallStart, Manager.onToolCallEnd]⟩
          | ok s =>
            exact ⟨false, by simp [execOneToolCall, h, hf, hu, hex, hres,
              Manager.onToolCallStart, Manager.onToolCallEnd]⟩
      · exact ⟨true, by simp [execOneToolCall, h, hf, hu,
          Manager.onToolCallStart, Manager.onToolCallEnd]⟩
  · left
    simp [execOneToolCall, h, Manager.onToolCallEnd]

/-- Every event broadcast while dispatching one tool call is a tool-call
event (start or end). -/
theorem execOne_trace_toolEvents (A : AgentModel) (env : Env) (cm : Manager)
    (tc : ToolCall) :
    ∀ e ∈ (execOneToolCall A env cm tc).trace, isToolEvent e = true := by
  intro e he
  rcases execOne_trace_shape A env cm tc with hs | ⟨b, hs⟩ <;> rw [hs] at he <;>
    simp only [List.mem_cons, List.not_mem_nil, or_false] at he
  · subst he; rfl
  · rcases he with rfl | rfl <;> rfl

/-- Every event broadcast while dispatching a batch of tool calls is a
tool-call event. -/
theorem executeToolCalls_trace_toolEvents (A : AgentModel) (env : Env) :
    ∀ (tcs : List ToolCall) (cm : Manager),
      ∀ e ∈ (executeToolCalls A env cm tcs).trace, isToolEvent e = true := by
  intro tcs
  induction tcs with
  | nil => intro cm e he; cases he
  | cons tc rest ih =>
    intro cm e he
    unfold executeToolCalls at he
    cases hres : (execOneToolCall A env cm tc).result with
    | error er =>
      simp only [hres] at he
      exact execOne_trace_toolEvents A env cm tc e he
    | ok msg =>
      simp only [hres] at he
      cases hres2 : (executeToolCalls A env (execOneToolCall A env cm tc).mgr rest).result with
      | error er =>
        simp only [hres2, List.mem_append] at he
        rcases he with he | he
        · exact execOne_trace_toolEvents A env cm tc e he
        · exact ih _ e he
      | ok msgs =>
        simp only [hres2, List.mem_append] at he
        rcases he with he | he
        · exact execOne_trace_toolEvents A env cm tc e he
        · exact ih _ e he

/-- A trace of pure tool-call events contains no `OnError` and no
`OnGenerationStart` broadcasts. -/
theorem toolEvents_counts (tr : List Event)
    (h : ∀ e ∈ tr, isToolEvent e = true) :
    countErrorEvents tr = 0 ∧ countGenStarts tr = 0 := by
  constructor
  · have : tr.filter isErrorEvent = [] := by
      rw [List.filter_eq_nil]
      intro e he
      have := h e he
      cases e <;> simp_all [isToolEvent, isErrorEvent]
    simp [countErrorEvents, this]
  · have : tr.filter isGenStartEvent = [] := by
      rw [List.filter_eq_nil]
      intro e he
      have := h e he
      cases e <;> simp_all [isToolEvent, isGenStartEvent]
    simp [countGenStarts, this]

/-- A tool call satisfying `toolCallOK` dispatches without error. -/
theorem execOne_ok (A : AgentModel) (env : Env) (cm : Manager) (tc : ToolCall)
    (h : toolCallOK A env tc = true) :
    ∃ msg, (execOneToolCall A env cm tc).result = .ok msg := by
  unfold toolCallOK at h
  simp only [Bool.and_eq_true, Bool.not_eq_eq_eq_not, Bool.not_true,
    decide_eq_false_iff_not] at h
  obtain ⟨⟨⟨⟨h1, h2⟩, h3⟩, h4⟩, h5⟩ := h
  have h4' : (env.execute (findToolID A.schemas tc.name) tc.arguments).2 = none :=
    Option.isNone_iff_eq_none.1 h4
  obtain ⟨s, hs⟩ : ∃ s,
      resultToString (env.execute (findToolID A.schemas tc.name) tc.arguments).1 =
        .ok s := by
    cases hres : resultToString
        (env.execute (findToolID A.schemas tc.name) tc.arguments).1 with
    | error er => rw [hres] at h5; cases h5
    | ok s => exact ⟨s, rfl⟩
  refine ⟨.tool s tc.id, ?_⟩
  simp [execOneToolCall, h1, h2, h3, h4', hs]

/-- A batch of `toolCallOK` tool calls dispatches without error. -/
theorem executeToolCalls_ok (A : AgentModel) (env : Env) :
    ∀ (tcs : List ToolCall) (cm : Manager),
      (∀ tc ∈ tcs, toolCallOK A env tc = true) →
      ∃ msgs, (executeToolCalls A env cm tcs).result = .ok msgs := by
  intro tcs
  induction tcs with
  | nil => intro cm _; exact ⟨[], rfl⟩
  | cons tc rest ih =>
    intro cm h
    obtain ⟨msg, hmsg⟩ := execOne_ok A env cm tc (h tc (by simp))
    obtain ⟨msgs, hmsgs⟩ := ih (execOneToolCall A env cm tc).mgr
      (fun tc' htc' => h tc' (by simp [htc']))
    refine ⟨msg :: msgs, ?_⟩
    unfold executeToolCalls
    simp only [hmsg, hmsgs]

/-- Under a never-terminal oracle whose tool calls all dispatch cleanly, the
loop consumes its whole budget: it performs one generation step per unit of
remaining budget and ends in the iteration-limit error. -/
theorem loop_alwaysTool (A : AgentModel) (env : Env)
    (oracle : List Message → CompletionResult) (maxI : Nat)
    (h : alwaysToolStep A env oracle) :
    ∀ (fuel iteration : Nat) (msgs : List Message) (cm : Manager),
      (loopGo A env oracle maxI fuel iteration msgs cm).result =
        .error ("max iterations (" ++ toString maxI ++ ") reached without completion") ∧
      countGenStarts (loopGo A env oracle maxI fuel iteration msgs cm).trace = fuel ∧
      (loopGo A env oracle maxI fuel iteration msgs cm).iterations = iteration + fuel := by
  intro fuel
  induction fuel with
  | zero =>
    intro iteration msgs cm
    refine ⟨rfl, ?_, rfl⟩
    simp [loopGo, countGenStarts, isGenStartEvent, Manager.onErrorEv]
  | succ fuel ih =>
    intro iteration msgs cm
    obtain ⟨choice, rest, horacle, hne, hok⟩ := h msgs
    cases hc : choice.toolCalls with
    | nil => exact absurd hc hne
    | cons tc tcs =>
      rw [hc] at hok
      obtain ⟨msgs', hdisp⟩ := executeToolCalls_ok A env (tc :: tcs) cm hok
      have hnext := ih (iteration + 1)
        ((msgs ++ [.assistant choice.content choice.toolCalls]) ++ msgs')
        (executeToolCalls A env cm (tc :: tcs)).mgr
      have htool := toolEvents_counts
        (executeToolCalls A env cm (tc :: tcs)).trace
        (executeToolCalls_trace_toolEvents A env (tc :: tcs) cm)
      rw [hc] at hnext
      simp only [loopGo, horacle, hc, hdisp]
      refine ⟨hnext.1, ?_, ?_⟩
      · simp only [countGenStarts, List.filter_append, List.length_append]
        have e1 : (List.filter isGenStartEvent
            [cm.onGenerationStart (iteration + 1),
             cm.onGenerationEnd choice.finishReason choice.content
               (tc :: tcs).length]).length = 1 := rfl
        have e2 := htool.2
        have e3 := hnext.2.1
        simp only [countGenStarts] at e2 e3
        omega
      · rw [hnext.2.2]
        omega

/-- C5: when every generation step requests at least one cleanly dispatching
tool call (no terminal step), the loop performs exactly the effective maximum
number of generation steps and then returns the iteration-limit error; the
default cap installed by `CreateAgentWithOutput` is 10 and a per-invocation
`MaxIterations` override replaces it (the effective cap is the override when
present, else the agent's). -/
theorem C5_iteration_budget (dm : String) (iso : Bool) (opf : String → Bool)
    (ts : List ToolExec) (A : AgentModel) (env : Env)
    (oracle : List Message → CompletionResult) (config : InvokeConfig)
    (m : Nat) (msgs : List Message)
    (halways : alwaysToolStep A env oracle)
    (hmsgs : buildMessages config = .ok msgs)
    (hmax : config.maxIterations.getD A.maxIterations = m) :
    (CreateAgentWithOutput dm iso opf ts).maxIterations = 10 ∧
    invokeResult A env oracle config =
      .error ("max iterations (" ++ toString m ++ ") reached without completion") ∧
    countGenStarts (invokeTrace A env oracle config) = m := by
  have hl := loop_alwaysTool A env oracle m halways m 0 msgs
    (Manager.new (mergeCallbacks A.callbacks config.callbacks) config.parentRunID)
  refine ⟨rfl, ?_, ?_⟩
  · simp only [invokeResult, Invoke, executeLoop, hmsgs, hmax]
    simp [hl.1]
  · simp only [invokeTrace, Invoke, executeLoop, hmsgs, hmax]
    simp only [hl.1]
    have e3 := hl.2.1
    simp only [countGenStarts, List.filter_append] at e3 ⊢
    simp [Manager.onRunStart, Manager.onErrorEv, isGenStartEvent, e3]

/-- Witness for C5 with a `MaxIterations = 1` override and a never-terminal
oracle: the failure occurs after exactly one generation step. -/
theorem C5_iteration_budget_witness :
    (CreateAgentWithOutput "m" true (fun _ => true) []).maxIterations = 10 ∧
    invokeResult agentFix envOKFix oracleToolFix cfgMax1Fix =
      .error ("max iterations (" ++ toString 1 ++ ") reached without completion") ∧
    countGenStarts (invokeTrace agentFix envOKFix oracleToolFix cfgMax1Fix) = 1 :=
  C5_iteration_budget "m" true (fun _ => true) [] agentFix envOKFix oracleToolFix
    cfgMax1Fix 1 [.user "hi"]
    (fun _ => ⟨_, [], rfl, by decide, by decide⟩) rfl rfl

/-- The loop broadcasts exactly one `OnError` on an erroring run and none on
a successful one. -/
theorem loop_onError_count (A : AgentModel) (env : Env)
    (oracle : List Message → CompletionResult) (maxI : Nat) :
    ∀ (fuel iteration : Nat) (msgs : List Message) (cm : Manager),
      countErrorEvents (loopGo A env oracle maxI fuel iteration msgs cm).trace =
        (if exceptOk (loopGo A env oracle maxI fuel iteration msgs cm).result
         then 0 else 1) := by
  intro fuel
  induction fuel with
  | zero =>
    intro iteration msgs cm
    simp [loopGo, countErrorEvents, isErrorEvent, exceptOk, Manager.onErrorEv]
  | succ fuel ih =>
    intro iteration msgs cm
    cases ho : oracle msgs with
    | apiError e =>
      simp [loopGo, ho, countErrorEvents, isErrorEvent, exceptOk,
        Manager.onErrorEv, Manager.onGenerationStart]
    | ok choices =>
      cases choices with
      | nil =>
        simp [loopGo, ho, countErrorEvents, isErrorEvent, exceptOk,
          Manager.onErrorEv, Manager.onGenerationStart]
      | cons choice rest =>
        cases hc : choice.toolCalls with
        | nil =>
          by_cases hs : A.isStringOutput
          · simp [loopGo, ho, hc, hs, countErrorEvents, isErrorEvent, exceptOk,
              Manager.onGenerationStart, Manager.onGenerationEnd]
          · by_cases hop : A.outputParses choice.content
            · simp [loopGo, ho, hc, hs, hop, countErrorEvents, isErrorEvent,
                exceptOk, Manager.onGenerationStart, Manager.onGenerationEnd]
            · simp [loopGo, ho, hc, hs, hop, countErrorEvents, isErrorEvent,
                exceptOk, Manager.onErrorEv, Manager.onGenerationStart,
                Manager.onGenerationEnd]
        | cons tc tcs =>
          have htool := toolEvents_counts
            (executeToolCalls A env cm (tc :: tcs)).trace
            (executeToolCalls_trace_toolEvents A env (tc :: tcs) cm)
          have ht := htool.1
          cases hd : (executeToolCalls A env cm (tc :: tcs)).result with
          | error e =>
            simp only [loopGo, ho, hc, hd]
            have e1 : countErrorEvents
                ([cm.onGenerationStart (iteration + 1),
                  cm.onGenerationEnd choice.finishReason choice.content
                    (tc :: tcs).length] : List Event) = 0 := rfl
            simp only [countErrorEvents, List.filter_append,
              List.length_append, exceptOk] at e1 ht ⊢
            simp [Manager.onErrorEv, Manager.onGenerationStart,
              Manager.onGenerationEnd, isErrorEvent, e1, ht]
          | ok msgs' =>
            have hnext := ih (iteration + 1)
              ((msgs ++ [.assistant choice.content (tc :: tcs)]) ++ msgs')
              (executeToolCalls A env cm (tc :: tcs)).mgr
            simp only [loopGo, ho, hc, hd]
            have e1 : countErrorEvents
                ([cm.onGenerationStart (iteration + 1),
                  cm.onGenerationEnd choice.finishReason choice.content
                    (tc :: tcs).length] : List Event) = 0 := rfl
            simp only [countErrorEvents, List.filter_append,
              List.length_append] at e1 ht hnext ⊢
            omega

/-- C1 counterexample: on a generation failure, `OnError` is broadcast twice
before `Invoke` returns — once with stage `generation` inside the loop and
once more with stage `run` in `Invoke` — contradicting "at most once". -/
theorem C1_counterexample :
    countErrorEvents
      (invokeTrace agentFix envOKFix oracleAPIErrFix cfgPromptFix) = 2 := by
  decide

/-- C1 amended: on a successful invocation no `OnError` is broadcast; on the
invocation-input error path exactly one `OnError` is broadcast before
`Invoke` returns; on every error path that reaches the execution loop
exactly two are broadcast — one with the specific stage inside the loop,
then a final stage-`run` one in `Invoke` before returning. -/
theorem C1_onError_discipline (A : AgentModel) (env : Env)
    (oracle : List Message → CompletionResult) (config : InvokeConfig) :
    (∀ out, invokeResult A env oracle config = .ok out →
      countErrorEvents (invokeTrace A env oracle config) = 0) ∧
    (∀ e, buildMessages config = .error e →
      countErrorEvents (invokeTrace A env oracle config) = 1) ∧
    (∀ msgs e, buildMessages config = .ok msgs →
      invokeResult A env oracle config = .error e →
      countErrorEvents (invokeTrace A env oracle config) = 2) := by
  cases hb : buildMessages config with
  | error e0 =>
    refine ⟨?_, ?_, ?_⟩
    · intro out hout
      simp [invokeResult, Invoke, hb] at hout
    · intro e _
      simp [invokeTrace, Invoke, hb, countErrorEvents, isErrorEvent,
        Manager.onErrorEv]
    · intro msgs e hmsgs
      cases hmsgs
  | ok msgs0 =>
    have hl := loop_onError_count A env oracle
      (config.maxIterations.getD A.maxIterations)
      (config.maxIterations.getD A.maxIterations) 0 msgs0
      (Manager.new (mergeCallbacks A.callbacks config.callbacks)
        config.parentRunID)
    cases hres : (loopGo A env oracle (config.maxIterations.getD A.maxIterations)
        (config.maxIterations.getD A.maxIterations) 0 msgs0
        (Manager.new (mergeCallbacks A.callbacks config.callbacks)
          config.parentRunID)).result with
    | error e1 =>
      rw [hres] at hl
      simp only [exceptOk, if_false, Bool.false_eq_true, ite_false] at hl
      refine ⟨?_, ?_, ?_⟩
      · intro out hout
        simp only [invokeResult, Invoke, executeLoop, hb, hres] at hout
        cases hout
      · intro e he
        cases he
      · intro msgs e _ _
        simp only [invokeTrace, Invoke, executeLoop, hb, hres]
        simp only [countErrorEvents, List.filter_append] at hl ⊢
        simp [Manager.onRunStart, Manager.onErrorEv, isErrorEvent, hl]
    | ok out1 =>
      rw [hres] at hl
      simp only [exceptOk, if_true, ite_true] at hl
      refine ⟨?_, ?_, ?_⟩
      · intro out _
        simp only [invokeTrace, Invoke, executeLoop, hb, hres]
        simp only [countErrorEvents, List.filter_append] at hl ⊢
        simp [Manager.onRunStart, Manager.onRunEnd, isErrorEvent, hl]
      · intro e he
        cases he
      · intro msgs e _ hout
        simp only [invokeResult, Invoke, executeLoop, hb, hres] at hout
        cases hout

/-- Witness for C1 exercising all three branches: a generation failure
(two broadcasts), an input error (one broadcast), and a clean run (none). -/
theorem C1_onError_discipline_witness :
    countErrorEvents (invokeTrace agentFix envOKFix oracleAPIErrFix cfgMax1Fix) = 2 ∧
    countErrorEvents (invokeTrace agentFix envOKFix oracleAPIErrFix cfgBothFix) = 1 ∧
    countErrorEvents (invokeTrace agentFix envOKFix oracleDoneFix cfgPromptFix) = 0 :=
  ⟨(C1_onError_discipline agentFix envOKFix oracleAPIErrFix cfgMax1Fix).2.2
      [.user "hi"] "OpenAI API error: boom" rfl rfl,
   (C1_onError_discipline agentFix envOKFix oracleAPIErrFix cfgBothFix).2.1
      "cannot specify both Prompt and Messages" rfl,
   (C1_onError_discipline agentFix envOKFix oracleDoneFix cfgPromptFix).1
      "answer" rfl⟩

/-- C2 counterexample: supplying both a prompt and a message list does
broadcast a callback event before `Invoke` returns — a single `OnError` with
stage `run` — contradicting "no callback event of any kind is broadcast". -/
theorem C2_counterexample :
    invokeTrace agentFix envOKFix oracleToolFix cfgBothFix =
      [.errorEvent "run" "cannot specify both Prompt and Messages"] ∧
    invokeTrace agentFix envOKFix oracleToolFix cfgBothFix ≠ [] := by
  exact ⟨by decide, by decide⟩

/-- C2 amended: supplying both a non-empty prompt and a non-empty message
list makes `Invoke` return the input error, and the only callback event
broadcast before it returns is that single stage-`run` `OnError` — in
particular no `OnRunStart` and no callback-visible run is started. -/
theorem C2_both_prompt_messages (A : AgentModel) (env : Env)
    (oracle : List Message → CompletionResult) (config : InvokeConfig)
    (hp : config.prompt ≠ "") (hm : config.messages ≠ []) :
    invokeResult A env oracle config =
      .error "cannot specify both Prompt and Messages" ∧
    invokeTrace A env oracle config =
      [.errorEvent "run" "cannot specify both Prompt and Messages"] := by
  have hb : buildMessages config = .error "cannot specify both Prompt and Messages" := by
    unfold buildMessages
    have hme : config.messages.isEmpty = false := by
      cases hmm : config.messages with
      | nil => exact absurd hmm hm
      | cons a l => rfl
    simp [hp, hme]
  constructor
  · simp [invokeResult, Invoke, hb]
  · simp [invokeTrace, Invoke, hb, Manager.onErrorEv]

/-- Witness for C2 at a concrete both-supplied configuration. -/
theorem C2_both_prompt_messages_witness :
    invokeResult agentFix envOKFix oracleToolFix cfgBothFix =
      .error "cannot specify both Prompt and Messages" ∧
    invokeTrace agentFix envOKFix oracleToolFix cfgBothFix =
      [.errorEvent "run" "cannot specify both Prompt and Messages"] :=
  C2_both_prompt_messages agentFix envOKFix oracleToolFix cfgBothFix
    (by decide) (by decide)

end GoaiKit
